import Mathlib

set_option linter.unusedVariables false

namespace TurboNeRF

/-! Shallow embedding of `src/utils/training-batch-kernels.cuh` over exact
rational arithmetic.  A GPU buffer indexed by the ray index is modelled by
passing the per-ray entry of each buffer to the per-thread body, and a
kernel's buffer writes at the ray index are returned as `Option` values
(`none` means the kernel does not write that location for this ray).  The
unbounded `while` loops of the marching kernels take an explicit fuel
argument; the `finished` field (resp. a `GenStatus` other than `fuelOut`)
records that the loop reached its own exit condition within the given fuel,
so that termination statements quantify over fuel. -/

structure V3 where
  x : ℚ
  y : ℚ
  z : ℚ
deriving Repr, DecidableEq

/-- External collaborator `OccupancyGrid` (`core/occupancy-grid.cuh`, outside
this repository): opaque step-size, level and occupancy queries of spec §6. -/
structure OccupancyGrid where
  get_dt : ℚ → ℚ → ℚ → ℚ → ℚ
  get_grid_level_at : ℚ → ℚ → ℚ → ℚ → ℤ
  is_occupied_at : ℤ → ℚ → ℚ → ℚ → Bool
  get_dt_to_next_voxel : ℚ → ℚ → ℚ → ℚ → ℚ → ℚ → ℚ → ℚ → ℚ → ℚ → ℤ → ℚ

/-- External collaborator `BoundingBox` (`models/bounding-box.cuh`): opaque
containment and ray-intersection tests; the `t` out-parameter together with
the returned `bool` is an `Option`. -/
structure BoundingBox where
  contains : ℚ → ℚ → ℚ → Bool
  get_ray_t_intersection : ℚ → ℚ → ℚ → ℚ → ℚ → ℚ → ℚ → ℚ → ℚ → Option ℚ

structure Ray where
  o : V3
  d : V3

/-- External collaborator `Camera` (`models/camera.cuh`): `near`/`far` planes
and the opaque pixel-to-world-ray map. -/
structure Camera where
  near : ℚ
  far : ℚ
  global_ray_at_pixel_xy : ℚ → ℚ → Ray

/-- The grid/bbox/cone-angle/step-bound arguments shared by the two marching
kernels. -/
structure MarchCtx where
  bbox : BoundingBox
  grid : OccupancyGrid
  cone_angle : ℚ
  dt_min : ℚ
  dt_max : ℚ

/-- Value of `fmodf a b` for the nonnegative arguments the kernels use
(truncation agrees with the floor on nonnegative quotients). -/
def qfmod (a b : ℚ) : ℚ := a - b * ⌊a / b⌋

/-- Value of `static_cast<uint32_t>` applied to a nonnegative value. -/
def castUint (q : ℚ) : ℕ := (⌊q⌋).toNat

/-- `random_pixel_index` of `training-batch-kernels.cuh` (lines 59-77). -/
def random_pixel_index (global_chunk_index : ℕ) (n_pixels_per_image : ℕ)
    (n_chunks_per_image chunk_size random : ℚ) : ℕ :=
  let local_chunk_index := qfmod (global_chunk_index : ℚ) n_chunks_per_image
  let chunk_start := local_chunk_index * chunk_size
  let chunk_end := chunk_start + chunk_size
  castUint (chunk_start + random * (chunk_end - chunk_start))

/-- The image index computed at line 107 of the sampler kernel. -/
def sampler_image_idx (n_rays_per_image : ℚ) (i : ℕ) : ℕ :=
  castUint ((i : ℚ) / n_rays_per_image)

/-- The pixel index computed at line 108 of the sampler kernel: the kernel
instantiates `random_pixel_index` with `n_chunks_per_image := n_rays_per_image`. -/
def sampler_pixel_idx (n_pixels_per_image : ℕ) (n_rays_per_image chunk_size random : ℚ)
    (i : ℕ) : ℕ :=
  random_pixel_index i n_pixels_per_image n_rays_per_image chunk_size random

/-- The world-space camera ray built at lines 110-115 of the sampler kernel. -/
def sampler_camera_ray (cameras : ℕ → Camera) (image_dim_x : ℕ)
    (n_pixels_per_image : ℕ) (n_rays_per_image chunk_size random : ℚ) (i : ℕ) : Ray :=
  let pixel_idx := sampler_pixel_idx n_pixels_per_image n_rays_per_image chunk_size random i
  let x : ℚ := (pixel_idx % image_dim_x : ℕ)
  let y : ℚ := (pixel_idx / image_dim_x : ℕ)
  (cameras (sampler_image_idx n_rays_per_image i)).global_ray_at_pixel_xy x y

/-- Per-ray writes of `initialize_training_rays_and_pixels_kernel`.  The ghost
field `pixel_idx` records the pixel selected before any branch. -/
structure SamplerOut where
  alive : Bool
  pix_w : Option (ℚ × ℚ × ℚ × ℚ)
  ori_w : Option V3
  dir_w : Option V3
  idir_w : Option V3
  t_w : Option ℚ
  t_max_w : Option ℚ
  pixel_idx : ℕ
deriving Repr, DecidableEq

/-- The two early-return paths of the sampler write only `ray_alive[i] = false`. -/
def deadSamplerOut (pixel_idx : ℕ) : SamplerOut :=
  ⟨false, none, none, none, none, none, none, pixel_idx⟩

/-- The `bbox->get_ray_t_intersection` call of the sampler kernel
(lines 128-134), fed the camera ray and its componentwise inverse direction. -/
def sampler_intersection (n_pixels_per_image image_dim_x : ℕ)
    (n_rays_per_image random_pixel_chunk_size : ℚ) (bbox : BoundingBox)
    (cameras : ℕ → Camera) (random : ℚ) (i : ℕ) : Option ℚ :=
  let gray := sampler_camera_ray cameras image_dim_x n_pixels_per_image
      n_rays_per_image random_pixel_chunk_size random i
  bbox.get_ray_t_intersection gray.o.x gray.o.y gray.o.z gray.d.x gray.d.y gray.d.z
    (1 / gray.d.x) (1 / gray.d.y) (1 / gray.d.z)

/-- Per-ray body of `initialize_training_rays_and_pixels_kernel`
(lines 80-186), for a thread index `i < n_rays`.  `srgb_to_linear` is the
external `__srgb_to_linear` of `color-utils.cuh`; `image_data` gives the byte
at a flat index of the packed RGBA image buffer; `random` is `random[i]`. -/
def initialize_training_rays_and_pixels_kernel
    (n_pixels_per_image : ℕ) (image_dim_x : ℕ)
    (n_rays_per_image random_pixel_chunk_size : ℚ)
    (bbox : BoundingBox) (cameras : ℕ → Camera)
    (image_data : ℕ → ℕ) (srgb_to_linear : ℚ → ℚ)
    (random : ℚ) (i : ℕ) : SamplerOut :=
  let image_idx := sampler_image_idx n_rays_per_image i
  let pixel_idx := sampler_pixel_idx n_pixels_per_image n_rays_per_image random_pixel_chunk_size random i
  let global_ray := sampler_camera_ray cameras image_dim_x n_pixels_per_image
      n_rays_per_image random_pixel_chunk_size random i
  let o := global_ray.o
  let d := global_ray.d
  let idir : V3 := ⟨1 / d.x, 1 / d.y, 1 / d.z⟩
  match sampler_intersection n_pixels_per_image image_dim_x n_rays_per_image
      random_pixel_chunk_size bbox cameras random i with
  | none => deadSamplerOut pixel_idx
  | some t_int =>
    let cam := cameras image_idx
    let t_max := cam.far - cam.near
    let t := max 0 (t_int + 1/100000)
    if t_max < t then deadSamplerOut pixel_idx
    else
      let base := 4 * (n_pixels_per_image * image_idx + pixel_idx)
      let r := srgb_to_linear ((image_data base : ℚ) / 255)
      let g := srgb_to_linear ((image_data (base + 1) : ℚ) / 255)
      let b := srgb_to_linear ((image_data (base + 2) : ℚ) / 255)
      let a := (image_data (base + 3) : ℚ) / 255
      { alive := true
        pix_w := some (r * a, g * a, b * a, a)
        ori_w := some o
        dir_w := some d
        idir_w := some idir
        t_w := some t
        t_max_w := some t_max
        pixel_idx := pixel_idx }

/-- State left by the counting march: the final `n_steps_taken`, the values
written into `ori_xyz`/`ray_t` by the first-occupied-hit re-anchoring (`none`
when never written), the ghost list of counted hit positions in march order,
and whether the `while` loop reached its own exit within the fuel. -/
structure CountResult where
  n_steps_taken : ℕ
  stored_ori : Option V3
  stored_t : Option ℚ
  hits : List V3
  finished : Bool
deriving Repr, DecidableEq

/-- The `while (t < t_max)` loop of `march_and_count_steps_per_ray_kernel`
(lines 242-278).  The local registers `o`/`d`/`idir` are read once before the
loop and are not affected by the first-hit write-back, exactly as in the
source; `n` is the running `n_steps_taken`. -/
def countLoop (ctx : MarchCtx) (o d idir : V3) (t_max : ℚ) :
    ℕ → ℚ → ℕ → CountResult
  | 0, _, n => ⟨n, none, none, [], false⟩
  | fuel + 1, t, n =>
    if t < t_max then
      let x := o.x + t * d.x
      let y := o.y + t * d.y
      let z := o.z + t * d.z
      if ctx.bbox.contains x y z then
        let dt := ctx.grid.get_dt t ctx.cone_angle ctx.dt_min ctx.dt_max
        let lvl := ctx.grid.get_grid_level_at x y z dt
        if ctx.grid.is_occupied_at lvl x y z then
          let r := countLoop ctx o d idir t_max fuel (t + dt) (n + 1)
          { n_steps_taken := r.n_steps_taken
            stored_ori := if n = 0 then some ⟨x, y, z⟩ else r.stored_ori
            stored_t := if n = 0 then some 0 else r.stored_t
            hits := ⟨x, y, z⟩ :: r.hits
            finished := r.finished }
        else
          countLoop ctx o d idir t_max fuel
            (t + ctx.grid.get_dt_to_next_voxel x y z d.x d.y d.z idir.x idir.y idir.z
              ctx.dt_min lvl) n
      else ⟨n, none, none, [], true⟩
    else ⟨n, none, none, [], true⟩

/-- Per-ray writes of the counting kernel: the unconditional `n_steps[i]`
write, and the conditional `ray_alive`/`ori_xyz`/`ray_t` writes. -/
structure CountKernelOut where
  n_steps : ℕ
  alive_w : Option Bool
  ori_w : Option V3
  ray_t_w : Option ℚ
  hits : List V3
  finished : Bool
deriving Repr, DecidableEq

/-- Per-ray body of `march_and_count_steps_per_ray_kernel` (lines 190-285) for
a thread index `i < n_rays`:  dead rays get `n_steps[i] = 0` immediately; live
rays march, are killed when the march produced zero steps, and re-anchor
origin and `t` on the first occupied hit. -/
def march_and_count_steps_per_ray_kernel (ctx : MarchCtx) (fuel : ℕ)
    (ray_alive : Bool) (o d idir : V3) (ray_t ray_t_max : ℚ) : CountKernelOut :=
  if ray_alive then
    let r := countLoop ctx o d idir ray_t_max fuel ray_t 0
    { n_steps := r.n_steps_taken
      alive_w := if r.n_steps_taken = 0 then some false else none
      ori_w := r.stored_ori
      ray_t_w := r.stored_t
      hits := r.hits
      finished := r.finished }
  else ⟨0, none, none, none, [], true⟩

/-- How the generator loop ended: `done` when `n_steps_taken < n_steps` failed,
`exited` when the bounding-box test failed and the loop broke after emitting a
final sample, `fuelOut` when the fuel ran out first. -/
inductive GenStatus where
  | done
  | exited
  | fuelOut
deriving Repr, DecidableEq

/-- One `assign_normalized_ray_sample` emission of the generator, recorded with
the raw marching data it was computed from: the slot `k` (the value of
`n_steps_taken` at emission), the jittered parameter `tr`, the world position,
the step size, and whether it came from the occupied branch (`hit = true`) or
from the bounding-box-exit break (`hit = false`). -/
structure GenSample where
  k : ℕ
  tr : ℚ
  x : ℚ
  y : ℚ
  z : ℚ
  dt : ℚ
  hit : Bool
deriving Repr, DecidableEq

structure GenResult where
  samples : List GenSample
  status : GenStatus
deriving Repr, DecidableEq

/-- The `while (n_steps_taken < n_steps)` loop of
`march_and_generate_network_positions_kernel` (lines 395-445).  `s_rand k` is
`s_rand[k]`, the per-ray slice `random_float + sample_offset` of the random
buffer. -/
def genLoop (ctx : MarchCtx) (o d idir : V3) (s_rand : ℕ → ℚ) (n_steps : ℕ) :
    ℕ → ℚ → ℚ → ℕ → GenResult
  | 0, _, _, _ => ⟨[], .fuelOut⟩
  | fuel + 1, t0, t1, taken =>
    if taken < n_steps then
      let tr := t0 + (t1 - t0) * s_rand taken
      let x := o.x + tr * d.x
      let y := o.y + tr * d.y
      let z := o.z + tr * d.z
      let dt := ctx.grid.get_dt tr ctx.cone_angle ctx.dt_min ctx.dt_max
      if ctx.bbox.contains x y z then
        let lvl := ctx.grid.get_grid_level_at x y z dt
        if ctx.grid.is_occupied_at lvl x y z then
          let r := genLoop ctx o d idir s_rand n_steps fuel t1 (t1 + dt) (taken + 1)
          ⟨⟨taken, tr, x, y, z, dt, true⟩ :: r.samples, r.status⟩
        else
          genLoop ctx o d idir s_rand n_steps fuel t1
            (t1 + ctx.grid.get_dt_to_next_voxel x y z d.x d.y d.z idir.x idir.y idir.z
              ctx.dt_min lvl) taken
      else ⟨[⟨taken, tr, x, y, z, dt, false⟩], .exited⟩
    else ⟨[], .done⟩

/-- Per-ray body of `march_and_generate_network_positions_kernel`
(lines 327-446) for a thread index `i < n_rays`: dead rays return immediately
(before reading any other buffer, including `n_ray_steps`); live rays march
from `t0 = t1 = in_ray_t[i]`.  The kernel receives `in_ray_t_max[i]` but never
reads it inside the loop, which is faithfully kept as an unused argument. -/
def march_and_generate_network_positions_kernel (ctx : MarchCtx) (fuel : ℕ)
    (ray_alive : Bool) (o d idir : V3) (ray_t ray_t_max : ℚ)
    (s_rand : ℕ → ℚ) (n_ray_steps : ℕ) : GenResult :=
  if ray_alive then genLoop ctx o d idir s_rand n_ray_steps fuel ray_t ray_t 0
  else ⟨[], .done⟩

/-- `tcnn::clamp`. -/
def tcnn_clamp (v lower upper : ℚ) : ℚ := min (max v lower) upper

/-- The three buffer indices and the values written by one
`assign_normalized_ray_sample` call (lines 292-319). -/
structure SampleWrite where
  i0 : ℕ
  i1 : ℕ
  i2 : ℕ
  pos : V3
  dir : V3
  dt_out : ℚ
deriving Repr, DecidableEq

/-- `assign_normalized_ray_sample` (lines 292-319): writes `out_dt` at the
first index and the normalized position/direction at the three strided
indices. -/
def assign_normalized_ray_sample (batch_size sample_offset n_steps_taken : ℕ)
    (x y z dir_x dir_y dir_z dt inv_aabb_size : ℚ) : SampleWrite :=
  let step_offset_0 := sample_offset + n_steps_taken
  let step_offset_1 := step_offset_0 + batch_size
  let step_offset_2 := step_offset_1 + batch_size
  { i0 := step_offset_0
    i1 := step_offset_1
    i2 := step_offset_2
    pos := ⟨tcnn_clamp (x * inv_aabb_size + 1/2) 0 1,
            tcnn_clamp (y * inv_aabb_size + 1/2) 0 1,
            tcnn_clamp (z * inv_aabb_size + 1/2) 0 1⟩
    dir := ⟨1/2 * dir_x + 1/2, 1/2 * dir_y + 1/2, 1/2 * dir_z + 1/2⟩
    dt_out := inv_aabb_size * dt }

/-- One live ray's inputs to the generator kernel, used for batch-level
statements. -/
structure GenRayCfg where
  ctx : MarchCtx
  o : V3
  d : V3
  idir : V3
  t : ℚ
  s_rand : ℕ → ℚ
  n_steps : ℕ
  fuel : ℕ

/-- The generator run of one live ray. -/
def genRun (c : GenRayCfg) : GenResult :=
  march_and_generate_network_positions_kernel c.ctx c.fuel true c.o c.d c.idir
    c.t 0 c.s_rand c.n_steps

/-- The `SampleWrite`s a ray's generator run performs, at a given batch size
and compacted sample offset. -/
def genRunWrites (batch_size sample_offset : ℕ) (inv_aabb_size : ℚ)
    (c : GenRayCfg) : List SampleWrite :=
  (genRun c).samples.map fun s =>
    assign_normalized_ray_sample batch_size sample_offset s.k
      s.x s.y s.z c.d.x c.d.y c.d.z s.dt inv_aabb_size

/-- All flat buffer indices a ray's generator run writes. -/
def genRunWriteIndices (batch_size sample_offset : ℕ) (inv_aabb_size : ℚ)
    (c : GenRayCfg) : List ℕ :=
  (genRunWrites batch_size sample_offset inv_aabb_size c).flatMap fun w => [w.i0, w.i1, w.i2]

/-- Base (first-channel) compacted indices written by a list of rays whose
offsets form the exclusive prefix sum of their step counts, starting at `off`. -/
def batch_base_indices : ℕ → List GenRayCfg → List ℕ
  | _, [] => []
  | off, c :: cs =>
    ((genRun c).samples.map fun s => off + s.k) ++ batch_base_indices (off + c.n_steps) cs

/-- A concrete occupancy grid for counterexamples and witnesses: constant unit
step, occupied exactly at `x ∈ {0, 1, 2}`, and a large empty-space skip. -/
def cexGrid : OccupancyGrid where
  get_dt := fun _ _ _ _ => 1
  get_grid_level_at := fun _ _ _ _ => 0
  is_occupied_at := fun _ x _ _ => decide (x = 0 ∨ x = 1 ∨ x = 2)
  get_dt_to_next_voxel := fun _ _ _ _ _ _ _ _ _ _ _ => 5

/-- A concrete bounding box `[-1, 5/2]` along the x axis. -/
def cexBBox : BoundingBox where
  contains := fun x _ _ => decide (-1 ≤ x ∧ x ≤ 5/2)
  get_ray_t_intersection := fun _ _ _ _ _ _ _ _ _ => some 0

def cexCtx : MarchCtx := ⟨cexBBox, cexGrid, 0, 1, 1⟩

def cexO : V3 := ⟨0, 0, 0⟩

def cexD : V3 := ⟨1, 0, 0⟩

/-- A jitter buffer with values inside `[0, 1]` whose second entry is `1/2`. -/
def cexRand : ℕ → ℚ := fun k => if k = 1 then 1/2 else 1

/-- A grid whose step size is always strictly positive yet decays geometrically
toward `t = 2`, so the counting march never reaches `t_max = 2`. -/
def zenoGrid : OccupancyGrid where
  get_dt := fun t _ _ _ => if t < 2 then (2 - t) / 2 else 1
  get_grid_level_at := fun _ _ _ _ => 0
  is_occupied_at := fun _ _ _ _ => true
  get_dt_to_next_voxel := fun _ _ _ _ _ _ _ _ _ _ _ => 1

/-- An unbounded containment test (every query succeeds). -/
def zenoBBox : BoundingBox where
  contains := fun _ _ _ => true
  get_ray_t_intersection := fun _ _ _ _ _ _ _ _ _ => some 0

def zenoCtx : MarchCtx := ⟨zenoBBox, zenoGrid, 0, 1, 1⟩

/-- A grid with unit steps and no occupied cells. -/
def emptyGrid : OccupancyGrid where
  get_dt := fun _ _ _ _ => 1
  get_grid_level_at := fun _ _ _ _ => 0
  is_occupied_at := fun _ _ _ _ => false
  get_dt_to_next_voxel := fun _ _ _ _ _ _ _ _ _ _ _ => 1

/-- A bounding box the x axis leaves at `x = 10`. -/
def boundedBBox : BoundingBox where
  contains := fun x _ _ => decide (x < 10)
  get_ray_t_intersection := fun _ _ _ _ _ _ _ _ _ => some 0

def boundedCtx : MarchCtx := ⟨boundedBBox, emptyGrid, 0, 1, 1⟩

/-- A concrete camera at the origin looking down the x axis. -/
def cexCam : Camera := ⟨0, 2, fun _ _ => ⟨⟨0, 0, 0⟩, ⟨1, 0, 0⟩⟩⟩

/-- A concrete live-ray generator configuration over `cexCtx` with unit jitter. -/
def cexCfg : GenRayCfg := ⟨cexCtx, cexO, cexD, cexD, 0, fun _ => 1, 3, 6⟩

/-- Termination of the counting kernel's march, as a statement about fuel. -/
def count_march_terminates (ctx : MarchCtx) (o d idir : V3) (ray_t ray_t_max : ℚ) : Prop :=
  ∃ fuel, (march_and_count_steps_per_ray_kernel ctx fuel true o d idir ray_t ray_t_max).finished = true

/-- Termination of the generator kernel's march, as a statement about fuel. -/
def gen_march_terminates (ctx : MarchCtx) (o d idir : V3) (ray_t : ℚ)
    (s_rand : ℕ → ℚ) (n_ray_steps : ℕ) : Prop :=
  ∃ fuel, (march_and_generate_network_positions_kernel ctx fuel true o d idir ray_t 0
      s_rand n_ray_steps).status ≠ GenStatus.fuelOut

/-! Unfolding lemmas for the two fuelled loops. -/

lemma countLoop_zero (ctx : MarchCtx) (o d idir : V3) (t_max t : ℚ) (n : ℕ) :
    countLoop ctx o d idir t_max 0 t n = ⟨n, none, none, [], false⟩ := rfl

lemma countLoop_succ (ctx : MarchCtx) (o d idir : V3) (t_max t : ℚ) (fuel n : ℕ) :
    countLoop ctx o d idir t_max (fuel + 1) t n =
    (if t < t_max then
      let x := o.x + t * d.x
      let y := o.y + t * d.y
      let z := o.z + t * d.z
      if ctx.bbox.contains x y z then
        let dt := ctx.grid.get_dt t ctx.cone_angle ctx.dt_min ctx.dt_max
        let lvl := ctx.grid.get_grid_level_at x y z dt
        if ctx.grid.is_occupied_at lvl x y z then
          let r := countLoop ctx o d idir t_max fuel (t + dt) (n + 1)
          { n_steps_taken := r.n_steps_taken
            stored_ori := if n = 0 then some ⟨x, y, z⟩ else r.stored_ori
            stored_t := if n = 0 then some 0 else r.stored_t
            hits := ⟨x, y, z⟩ :: r.hits
            finished := r.finished }
        else
          countLoop ctx o d idir t_max fuel
            (t + ctx.grid.get_dt_to_next_voxel x y z d.x d.y d.z idir.x idir.y idir.z
              ctx.dt_min lvl) n
      else ⟨n, none, none, [], true⟩
    else ⟨n, none, none, [], true⟩) := rfl

lemma genLoop_zero (ctx : MarchCtx) (o d idir : V3) (s_rand : ℕ → ℚ) (n_steps : ℕ)
    (t0 t1 : ℚ) (taken : ℕ) :
    genLoop ctx o d idir s_rand n_steps 0 t0 t1 taken = ⟨[], .fuelOut⟩ := rfl

lemma genLoop_succ (ctx : MarchCtx) (o d idir : V3) (s_rand : ℕ → ℚ) (n_steps : ℕ)
    (fuel : ℕ) (t0 t1 : ℚ) (taken : ℕ) :
    genLoop ctx o d idir s_rand n_steps (fuel + 1) t0 t1 taken =
    (if taken < n_steps then
      let tr := t0 + (t1 - t0) * s_rand taken
      let x := o.x + tr * d.x
      let y := o.y + tr * d.y
      let z := o.z + tr * d.z
      let dt := ctx.grid.get_dt tr ctx.cone_angle ctx.dt_min ctx.dt_max
      if ctx.bbox.contains x y z then
        let lvl := ctx.grid.get_grid_level_at x y z dt
        if ctx.grid.is_occupied_at lvl x y z then
          let r := genLoop ctx o d idir s_rand n_steps fuel t1 (t1 + dt) (taken + 1)
          ⟨⟨taken, tr, x, y, z, dt, true⟩ :: r.samples, r.status⟩
        else
          genLoop ctx o d idir s_rand n_steps fuel t1
            (t1 + ctx.grid.get_dt_to_next_voxel x y z d.x d.y d.z idir.x idir.y idir.z
              ctx.dt_min lvl) taken
      else ⟨[⟨taken, tr, x, y, z, dt, false⟩], .exited⟩
    else ⟨[], .done⟩) := rfl

/-! Structural invariants of the counting loop. -/

/-- The running `n_steps_taken` never decreases. -/
lemma countLoop_count_le (ctx : MarchCtx) (o d idir : V3) (t_max : ℚ) (fuel : ℕ) :
    ∀ (t : ℚ) (n : ℕ), n ≤ (countLoop ctx o d idir t_max fuel t n).n_steps_taken := by
  induction fuel with
  | zero => intro t n; simp [countLoop_zero]
  | succ fuel ih =>
    intro t n
    simp only [countLoop_succ]
    split_ifs with h1 h2 h3 h4
    · exact le_trans (Nat.le_succ n) (ih _ _)
    · exact le_trans (Nat.le_succ n) (ih _ _)
    · exact ih _ _
    · simp
    · simp

/-- The final count is the initial count plus one per recorded hit. -/
lemma countLoop_count_hits (ctx : MarchCtx) (o d idir : V3) (t_max : ℚ) (fuel : ℕ) :
    ∀ (t : ℚ) (n : ℕ),
      (countLoop ctx o d idir t_max fuel t n).n_steps_taken =
        n + (countLoop ctx o d idir t_max fuel t n).hits.length := by
  induction fuel with
  | zero => intro t n; simp [countLoop_zero]
  | succ fuel ih =>
    intro t n
    simp only [countLoop_succ]
    split_ifs with h1 h2 h3 h4
    · simp only [List.length_cons]
      rw [ih]
      omega
    · simp only [List.length_cons]
      rw [ih]
      omega
    · exact ih _ _
    · simp
    · simp

/-- When the march starts with a zero count, the re-anchoring writes are
exactly determined by the first recorded hit. -/
lemma countLoop_stored (ctx : MarchCtx) (o d idir : V3) (t_max : ℚ) (fuel : ℕ) :
    ∀ (t : ℚ),
      (countLoop ctx o d idir t_max fuel t 0).stored_ori =
        (countLoop ctx o d idir t_max fuel t 0).hits.head? ∧
      (countLoop ctx o d idir t_max fuel t 0).stored_t =
        ((countLoop ctx o d idir t_max fuel t 0).hits.head?).map (fun _ => (0 : ℚ)) := by
  induction fuel with
  | zero => intro t; simp [countLoop_zero]
  | succ fuel ih =>
    intro t
    simp only [countLoop_succ]
    split_ifs with h1 h2 h3
    · simp
    · exact ih _
    · simp
    · simp

/-! Structural invariants of the generator loop. -/

/-- The slots of the emitted samples are consecutive, starting at the entry
value of `n_steps_taken`. -/
lemma genLoop_slots (ctx : MarchCtx) (o d idir : V3) (s_rand : ℕ → ℚ) (n_steps : ℕ)
    (fuel : ℕ) :
    ∀ (t0 t1 : ℚ) (taken : ℕ),
      (genLoop ctx o d idir s_rand n_steps fuel t0 t1 taken).samples.map (fun s => s.k) =
        List.range' taken (genLoop ctx o d idir s_rand n_steps fuel t0 t1 taken).samples.length := by
  induction fuel with
  | zero => intro t0 t1 taken; simp [genLoop_zero]
  | succ fuel ih =>
    intro t0 t1 taken
    simp only [genLoop_succ]
    split_ifs with h1 h2 h3
    · simp only [List.map_cons, List.length_cons, List.range'_succ]
      rw [ih]
    · exact ih _ _ _
    · simp [List.range'_succ]
    · simp

/-- Facts recorded in every emitted sample: its position and step size are the
marched values at its jittered parameter, its slot lies between the entry
count and `n_steps`, occupied-branch samples were emitted at an occupied cell
inside the box, and the only sample not from an occupied cell is the
bounding-box-exit one. -/
lemma genLoop_sample_facts (ctx : MarchCtx) (o d idir : V3) (s_rand : ℕ → ℚ) (n_steps : ℕ)
    (fuel : ℕ) :
    ∀ (t0 t1 : ℚ) (taken : ℕ),
      ∀ s ∈ (genLoop ctx o d idir s_rand n_steps fuel t0 t1 taken).samples,
        s.x = o.x + s.tr * d.x ∧ s.y = o.y + s.tr * d.y ∧ s.z = o.z + s.tr * d.z ∧
        s.dt = ctx.grid.get_dt s.tr ctx.cone_angle ctx.dt_min ctx.dt_max ∧
        taken ≤ s.k ∧ s.k < n_steps ∧
        (s.hit = true → ctx.bbox.contains s.x s.y s.z = true ∧
          ctx.grid.is_occupied_at (ctx.grid.get_grid_level_at s.x s.y s.z s.dt) s.x s.y s.z
            = true) ∧
        (s.hit = false → ctx.bbox.contains s.x s.y s.z = false) := by
  induction fuel with
  | zero => intro t0 t1 taken s hs; simp [genLoop_zero] at hs
  | succ fuel ih =>
    intro t0 t1 taken s hs
    simp only [genLoop_succ] at hs
    split_ifs at hs with h1 h2 h3
    · simp only [List.mem_cons] at hs
      rcases hs with rfl | hs
      · refine ⟨rfl, rfl, rfl, rfl, le_refl _, h1, fun _ => ⟨h2, h3⟩, fun hF => ?_⟩
        simp at hF
      · have := ih _ _ _ s hs
        exact ⟨this.1, this.2.1, this.2.2.1, this.2.2.2.1, le_trans (Nat.le_succ taken)
          this.2.2.2.2.1, this.2.2.2.2.2.1, this.2.2.2.2.2.2.1, this.2.2.2.2.2.2.2⟩
    · exact ih _ _ _ s hs
    · simp only [List.mem_singleton] at hs
      subst hs
      refine ⟨rfl, rfl, rfl, rfl, le_refl _, h1, fun hT => ?_, fun _ => ?_⟩
      · simp at hT
      · simpa using h2
    · simp at hs

/-- A run that ends with `done` emitted exactly the missing `n_steps - taken`
samples. -/
lemma genLoop_done_len (ctx : MarchCtx) (o d idir : V3) (s_rand : ℕ → ℚ) (n_steps : ℕ)
    (fuel : ℕ) :
    ∀ (t0 t1 : ℚ) (taken : ℕ), taken ≤ n_steps →
      (genLoop ctx o d idir s_rand n_steps fuel t0 t1 taken).status = GenStatus.done →
      taken + (genLoop ctx o d idir s_rand n_steps fuel t0 t1 taken).samples.length = n_steps := by
  induction fuel with
  | zero => intro t0 t1 taken _ hst; simp [genLoop_zero] at hst
  | succ fuel ih =>
    intro t0 t1 taken hle hst
    simp only [genLoop_succ] at hst ⊢
    split_ifs at hst ⊢ with h1 h2 h3
    · simp only [List.length_cons]
      have := ih _ _ (taken + 1) h1 hst
      omega
    · exact ih _ _ _ hle hst
    · show taken + 0 = n_steps
      omega

/-- With unit jitter (`s_rand ≡ 1`) the generator's query parameter equals its
`t1`, which mirrors the counter's `t` exactly: a finished counting run forces
the generator, fed the resulting count, to stop on its loop guard having
emitted exactly the missing samples. -/
lemma genLoop_mirror (ctx : MarchCtx) (o d idir : V3) (t_max : ℚ) (n : ℕ) (fuel : ℕ) :
    ∀ (t0 t1 : ℚ) (c : ℕ),
      (countLoop ctx o d idir t_max fuel t1 c).finished = true →
      (countLoop ctx o d idir t_max fuel t1 c).n_steps_taken = n →
      (genLoop ctx o d idir (fun _ => 1) n fuel t0 t1 c).status = GenStatus.done ∧
      c + (genLoop ctx o d idir (fun _ => 1) n fuel t0 t1 c).samples.length = n := by
  induction fuel with
  | zero => intro t0 t1 c hfin _; simp [countLoop_zero] at hfin
  | succ fuel ih =>
    intro t0 t1 c hfin hn
    have htr : t0 + (t1 - t0) * (1 : ℚ) = t1 := by ring
    simp only [countLoop_succ] at hfin hn
    simp only [genLoop_succ, htr]
    by_cases h1 : t1 < t_max
    · by_cases h2 : ctx.bbox.contains (o.x + t1 * d.x) (o.y + t1 * d.y) (o.z + t1 * d.z) = true
      · by_cases h3 : ctx.grid.is_occupied_at
            (ctx.grid.get_grid_level_at (o.x + t1 * d.x) (o.y + t1 * d.y) (o.z + t1 * d.z)
              (ctx.grid.get_dt t1 ctx.cone_angle ctx.dt_min ctx.dt_max))
            (o.x + t1 * d.x) (o.y + t1 * d.y) (o.z + t1 * d.z) = true
        · simp only [if_pos h1, if_pos h2, if_pos h3] at hfin hn ⊢
          have hle := countLoop_count_le ctx o d idir t_max fuel
            (t1 + ctx.grid.get_dt t1 ctx.cone_angle ctx.dt_min ctx.dt_max) (c + 1)
          have hcn : c < n := by omega
          simp only [if_pos hcn]
          have hrec := ih t1 (t1 + ctx.grid.get_dt t1 ctx.cone_angle ctx.dt_min ctx.dt_max)
            (c + 1) hfin hn
          refine ⟨hrec.1, ?_⟩
          have := hrec.2
          simp only [List.length_cons]
          omega
        · simp only [if_pos h1, if_pos h2, if_neg h3] at hfin hn ⊢
          by_cases hcn : c < n
          · simp only [if_pos hcn]
            exact ih _ _ _ hfin hn
          · have hle := countLoop_count_le ctx o d idir t_max fuel
              (t1 + ctx.grid.get_dt_to_next_voxel (o.x + t1 * d.x) (o.y + t1 * d.y)
                (o.z + t1 * d.z) d.x d.y d.z idir.x idir.y idir.z ctx.dt_min
                (ctx.grid.get_grid_level_at (o.x + t1 * d.x) (o.y + t1 * d.y) (o.z + t1 * d.z)
                  (ctx.grid.get_dt t1 ctx.cone_angle ctx.dt_min ctx.dt_max))) c
            simp only [if_neg hcn]
            refine ⟨trivial, ?_⟩
            show c + 0 = n
            omega
      · simp only [if_pos h1, if_neg h2] at hfin hn
        have hcn : ¬ c < n := by omega
        simp only [if_neg hcn]
        refine ⟨trivial, ?_⟩
        show c + 0 = n
        omega
    · simp only [if_neg h1] at hfin hn
      have hcn : ¬ c < n := by omega
      simp only [if_neg hcn]
      refine ⟨trivial, ?_⟩
      show c + 0 = n
      omega

/-- Claim C1, counterexample.  With identical grid, bounding box, ray state and
dt bounds, and a jitter buffer whose values all lie in `[0, 1]`, the counting
kernel finishes with `n_steps = 3` while the generator kernel fed that count
emits only `2` samples: the jittered occupancy queries diverge from the
counter's interval-start queries, so the two passes are not bit-identical and
the emitted count can differ from `n_steps[i]`. -/
theorem claim_C1_counterexample :
    (∀ k, 0 ≤ cexRand k ∧ cexRand k ≤ 1) ∧
    (march_and_count_steps_per_ray_kernel cexCtx 6 true cexO cexD cexD 0 3).finished = true ∧
    (march_and_count_steps_per_ray_kernel cexCtx 6 true cexO cexD cexD 0 3).n_steps = 3 ∧
    (march_and_generate_network_positions_kernel cexCtx 6 true cexO cexD cexD 0 3 cexRand
        (march_and_count_steps_per_ray_kernel cexCtx 6 true cexO cexD cexD 0 3).n_steps).samples.length
      ≠ (march_and_count_steps_per_ray_kernel cexCtx 6 true cexO cexD cexD 0 3).n_steps := by
  refine ⟨fun k => ?_, ?_, ?_, ?_⟩
  · rcases eq_or_ne k 1 with h | h <;> norm_num [cexRand, h]
  · norm_num [march_and_count_steps_per_ray_kernel, countLoop_succ, countLoop_zero,
      cexCtx, cexO, cexD, cexGrid, cexBBox]
  · norm_num [march_and_count_steps_per_ray_kernel, countLoop_succ, countLoop_zero,
      cexCtx, cexO, cexD, cexGrid, cexBBox]
  · norm_num [march_and_count_steps_per_ray_kernel, march_and_generate_network_positions_kernel,
      countLoop_succ, countLoop_zero, genLoop_succ, genLoop_zero,
      cexCtx, cexO, cexD, cexGrid, cexBBox, cexRand]

/-- Claim C1, amended.  The divergence is exactly the jitter: when every
jitter random equals `1` the generator queries the same parameters, positions,
step sizes and occupancies as the counter, in the same order, and for any ray
whose counting march finished, the generator fed that ray's `n_steps` ends on
its loop guard having emitted exactly `n_steps` samples; for arbitrary jitter
the generator still never emits more than `n_steps` samples (claim C10). -/
theorem claim_C1_amended (ctx : MarchCtx) (fuel : ℕ) (o d idir : V3)
    (ray_t ray_t_max gen_ray_t_max : ℚ)
    (hfin : (march_and_count_steps_per_ray_kernel ctx fuel true o d idir ray_t
      ray_t_max).finished = true) :
    (march_and_generate_network_positions_kernel ctx fuel true o d idir ray_t gen_ray_t_max
        (fun _ => 1)
        (march_and_count_steps_per_ray_kernel ctx fuel true o d idir ray_t ray_t_max).n_steps).status
      = GenStatus.done ∧
    (march_and_generate_network_positions_kernel ctx fuel true o d idir ray_t gen_ray_t_max
        (fun _ => 1)
        (march_and_count_steps_per_ray_kernel ctx fuel true o d idir ray_t
          ray_t_max).n_steps).samples.length
      = (march_and_count_steps_per_ray_kernel ctx fuel true o d idir ray_t ray_t_max).n_steps := by
  simp only [march_and_count_steps_per_ray_kernel, march_and_generate_network_positions_kernel,
    if_true] at hfin ⊢
  have hm := genLoop_mirror ctx o d idir ray_t_max
    (countLoop ctx o d idir ray_t_max fuel ray_t 0).n_steps_taken fuel ray_t ray_t 0 hfin rfl
  exact ⟨hm.1, by omega⟩

/-- Claim C1, witness for the amended theorem at a concrete finished run. -/
theorem claim_C1_witness :
    (march_and_generate_network_positions_kernel cexCtx 6 true cexO cexD cexD 0 99
        (fun _ => 1)
        (march_and_count_steps_per_ray_kernel cexCtx 6 true cexO cexD cexD 0 3).n_steps).samples.length
      = (march_and_count_steps_per_ray_kernel cexCtx 6 true cexO cexD cexD 0 3).n_steps :=
  (claim_C1_amended cexCtx 6 cexO cexD cexD 0 3 99
    (by norm_num [march_and_count_steps_per_ray_kernel, countLoop_succ, countLoop_zero,
      cexCtx, cexO, cexD, cexGrid, cexBBox])).2

/-- Claim C6.  In the counting kernel, a live ray's stored origin is
overwritten exactly when the march records at least one occupied hit, with the
world position of the first such hit, and `ray_t` is then reset to `0`; both
writes happen at most once (they are single `Option` values), and a ray whose
march never hits an occupied cell (`hits = []`, equivalently `n_steps = 0`)
keeps its stored origin and `t` unwritten. -/
theorem claim_C6 (ctx : MarchCtx) (fuel : ℕ) (o d idir : V3) (ray_t ray_t_max : ℚ) :
    (march_and_count_steps_per_ray_kernel ctx fuel true o d idir ray_t ray_t_max).ori_w
      = (march_and_count_steps_per_ray_kernel ctx fuel true o d idir ray_t ray_t_max).hits.head?
    ∧ (march_and_count_steps_per_ray_kernel ctx fuel true o d idir ray_t ray_t_max).ray_t_w
      = ((march_and_count_steps_per_ray_kernel ctx fuel true o d idir ray_t
          ray_t_max).hits.head?).map (fun _ => (0 : ℚ))
    ∧ (march_and_count_steps_per_ray_kernel ctx fuel true o d idir ray_t ray_t_max).n_steps
      = (march_and_count_steps_per_ray_kernel ctx fuel true o d idir ray_t ray_t_max).hits.length := by
  simp only [march_and_count_steps_per_ray_kernel, if_true]
  have h1 := countLoop_stored ctx o d idir ray_t_max fuel ray_t
  have h2 := countLoop_count_hits ctx o d idir ray_t_max fuel ray_t 0
  exact ⟨h1.1, h1.2, by omega⟩

/-- Claim C8.  The counting kernel writes `n_steps[i] = 0` for a ray already
marked dead and performs no march and no other write; and for a live ray the
kill write `ray_alive[i] = false` happens exactly when the march produced zero
steps. -/
theorem claim_C8 (ctx : MarchCtx) (fuel : ℕ) (o d idir o' d' idir' : V3)
    (ray_t ray_t_max ray_t' ray_t_max' : ℚ) :
    march_and_count_steps_per_ray_kernel ctx fuel false o d idir ray_t ray_t_max
      = ⟨0, none, none, none, [], true⟩
    ∧ ((march_and_count_steps_per_ray_kernel ctx fuel true o' d' idir' ray_t'
          ray_t_max').alive_w = some false
        ↔ (march_and_count_steps_per_ray_kernel ctx fuel true o' d' idir' ray_t'
          ray_t_max').n_steps = 0) := by
  refine ⟨rfl, ?_⟩
  simp only [march_and_count_steps_per_ray_kernel, if_true]
  by_cases h : (countLoop ctx o' d' idir' ray_t_max' fuel ray_t' 0).n_steps_taken = 0 <;>
    simp [h]

/-- Claim C9.  Two-run noninterference for dead rays: with `ray_alive[i] =
false`, the outputs of the counting kernel and of the generator kernel do not
depend on the per-ray origin, direction, inverse-direction, `t`, `t_max`,
jitter-slice or step-count buffer entries at index `i` (and neither kernel
takes the pixel buffers as inputs at all). -/
theorem claim_C9 (ctx : MarchCtx) (fuel : ℕ) (o₁ d₁ idir₁ o₂ d₂ idir₂ : V3)
    (t₁ m₁ t₂ m₂ : ℚ) (r₁ r₂ : ℕ → ℚ) (n₁ n₂ : ℕ) :
    march_and_count_steps_per_ray_kernel ctx fuel false o₁ d₁ idir₁ t₁ m₁
      = march_and_count_steps_per_ray_kernel ctx fuel false o₂ d₂ idir₂ t₂ m₂
    ∧ march_and_generate_network_positions_kernel ctx fuel false o₁ d₁ idir₁ t₁ m₁ r₁ n₁
      = march_and_generate_network_positions_kernel ctx fuel false o₂ d₂ idir₂ t₂ m₂ r₂ n₂ :=
  ⟨rfl, rfl⟩

/-- Claim C7.  The selected pixel index equals
`floor(chunk_start + random * chunk_size)` with
`chunk_start = fmod(i, n_chunks_per_image) * chunk_size` (exact arithmetic:
`random * (chunk_end - chunk_start)` collapses to `random * chunk_size`); with
zero random the first pixel of the chunk, `floor(chunk_start)`, is selected
deterministically; and the sampler kernel instantiates this selection with
`n_chunks_per_image := n_rays_per_image` and the per-ray random. -/
theorem claim_C7 (i n_pixels_per_image image_dim_x : ℕ)
    (n_chunks_per_image chunk_size random n_rays_per_image : ℚ)
    (bbox : BoundingBox) (cameras : ℕ → Camera) (image_data : ℕ → ℕ)
    (srgb_to_linear : ℚ → ℚ) :
    random_pixel_index i n_pixels_per_image n_chunks_per_image chunk_size random
      = castUint (qfmod (i : ℚ) n_chunks_per_image * chunk_size + random * chunk_size)
    ∧ random_pixel_index i n_pixels_per_image n_chunks_per_image chunk_size 0
      = castUint (qfmod (i : ℚ) n_chunks_per_image * chunk_size)
    ∧ (initialize_training_rays_and_pixels_kernel n_pixels_per_image image_dim_x
        n_rays_per_image chunk_size bbox cameras image_data srgb_to_linear random i).pixel_idx
      = random_pixel_index i n_pixels_per_image n_rays_per_image chunk_size random := by
  refine ⟨?_, ?_, ?_⟩
  · simp only [random_pixel_index]
    congr 1
    ring
  · simp only [random_pixel_index]
    congr 1
    ring
  · simp only [initialize_training_rays_and_pixels_kernel]
    rcases hm : sampler_intersection n_pixels_per_image image_dim_x n_rays_per_image
        chunk_size bbox cameras random i with _ | t_int
    · simp [deadSamplerOut, sampler_pixel_idx]
    · dsimp only
      split_ifs <;> simp [deadSamplerOut, sampler_pixel_idx]

/-- Claim C2.  For a sampler thread: if the camera ray misses the bounding box
the ray is marked dead; if it hits at `t_int` but
`t = max(0, t_int + 1e-5)` exceeds `t_max = camera.far - camera.near` the ray
is marked dead; otherwise the ray is marked alive with `ray_t[i] = t` and
`ray_t_max[i] = camera.far - camera.near`. -/
theorem claim_C2 (n_pixels_per_image image_dim_x : ℕ)
    (n_rays_per_image chunk_size : ℚ) (bbox : BoundingBox) (cameras : ℕ → Camera)
    (image_data : ℕ → ℕ) (srgb_to_linear : ℚ → ℚ) (random : ℚ) (i : ℕ) :
    (sampler_intersection n_pixels_per_image image_dim_x n_rays_per_image chunk_size
        bbox cameras random i = none →
      (initialize_training_rays_and_pixels_kernel n_pixels_per_image image_dim_x
        n_rays_per_image chunk_size bbox cameras image_data srgb_to_linear random i).alive
        = false)
    ∧ (∀ t_int, sampler_intersection n_pixels_per_image image_dim_x n_rays_per_image
        chunk_size bbox cameras random i = some t_int →
        (cameras (sampler_image_idx n_rays_per_image i)).far
            - (cameras (sampler_image_idx n_rays_per_image i)).near
          < max 0 (t_int + 1/100000) →
        (initialize_training_rays_and_pixels_kernel n_pixels_per_image image_dim_x
          n_rays_per_image chunk_size bbox cameras image_data srgb_to_linear random i).alive
          = false)
    ∧ (∀ t_int, sampler_intersection n_pixels_per_image image_dim_x n_rays_per_image
        chunk_size bbox cameras random i = some t_int →
        max 0 (t_int + 1/100000)
          ≤ (cameras (sampler_image_idx n_rays_per_image i)).far
            - (cameras (sampler_image_idx n_rays_per_image i)).near →
        (initialize_training_rays_and_pixels_kernel n_pixels_per_image image_dim_x
          n_rays_per_image chunk_size bbox cameras image_data srgb_to_linear random i).alive
          = true
        ∧ (initialize_training_rays_and_pixels_kernel n_pixels_per_image image_dim_x
            n_rays_per_image chunk_size bbox cameras image_data srgb_to_linear random i).t_w
          = some (max 0 (t_int + 1/100000))
        ∧ (initialize_training_rays_and_pixels_kernel n_pixels_per_image image_dim_x
            n_rays_per_image chunk_size bbox cameras image_data srgb_to_linear random i).t_max_w
          = some ((cameras (sampler_image_idx n_rays_per_image i)).far
            - (cameras (sampler_image_idx n_rays_per_image i)).near)) := by
  refine ⟨?_, ?_, ?_⟩
  · intro h
    simp [initialize_training_rays_and_pixels_kernel, h, deadSamplerOut]
  · intro t_int h hlt
    simp only [initialize_training_rays_and_pixels_kernel, h]
    rw [if_pos hlt]
    simp [deadSamplerOut]
  · intro t_int h hle
    simp only [initialize_training_rays_and_pixels_kernel, h]
    rw [if_neg (not_lt.2 hle)]
    exact ⟨rfl, rfl, rfl⟩

/-- Claim C2, witness: a concrete camera/bbox where the ray hits at
`t_int = 0` and survives the `t_max` test, so the sampler marks it alive with
the stated `t` and `t_max`. -/
theorem claim_C2_witness :
    (initialize_training_rays_and_pixels_kernel 1 1 1 1 cexBBox (fun _ => cexCam)
        (fun _ => 0) (fun q => q) 0 0).alive = true
    ∧ (initialize_training_rays_and_pixels_kernel 1 1 1 1 cexBBox (fun _ => cexCam)
        (fun _ => 0) (fun q => q) 0 0).t_w = some (max 0 (0 + 1/100000))
    ∧ (initialize_training_rays_and_pixels_kernel 1 1 1 1 cexBBox (fun _ => cexCam)
        (fun _ => 0) (fun q => q) 0 0).t_max_w = some (cexCam.far - cexCam.near) :=
  (claim_C2 1 1 1 1 cexBBox (fun _ => cexCam) (fun _ => 0) (fun q => q) 0 0).2.2 0
    rfl (by norm_num [cexCam])

/-- Claim C3.  The generator's emissions, in order, occupy consecutive slots
`k = 0, 1, ...`; the sample at slot `k` is written by
`assign_normalized_ray_sample` at flat indices `offset + k`,
`offset + k + batch_size` and `offset + k + 2 * batch_size`, with position
`x * inv_aabb_size + 0.5` clamped to `[0, 1]` per coordinate, direction
`0.5 * d + 0.5` per coordinate and `dt * inv_aabb_size`; each stored position
is the marched world position at the sample's jittered parameter; occupied
steps emit at occupied cells, and the only sample not from an occupied cell is
the bounding-box-exit one, so unoccupied cells emit no sample. -/
theorem claim_C3 (ctx : MarchCtx) (o d idir : V3) (s_rand : ℕ → ℚ) (n fuel : ℕ)
    (ray_t ray_t_max : ℚ) (batch_size sample_offset : ℕ) (inv_aabb_size : ℚ) :
    ((march_and_generate_network_positions_kernel ctx fuel true o d idir ray_t ray_t_max
        s_rand n).samples.map (fun s => s.k))
      = List.range ((march_and_generate_network_positions_kernel ctx fuel true o d idir
          ray_t ray_t_max s_rand n).samples.length)
    ∧ ∀ s ∈ (march_and_generate_network_positions_kernel ctx fuel true o d idir ray_t
        ray_t_max s_rand n).samples,
        s.k < n
        ∧ assign_normalized_ray_sample batch_size sample_offset s.k s.x s.y s.z d.x d.y d.z
            s.dt inv_aabb_size
          = { i0 := sample_offset + s.k
              i1 := sample_offset + s.k + batch_size
              i2 := sample_offset + s.k + 2 * batch_size
              pos := ⟨tcnn_clamp (s.x * inv_aabb_size + 1/2) 0 1,
                      tcnn_clamp (s.y * inv_aabb_size + 1/2) 0 1,
                      tcnn_clamp (s.z * inv_aabb_size + 1/2) 0 1⟩
              dir := ⟨1/2 * d.x + 1/2, 1/2 * d.y + 1/2, 1/2 * d.z + 1/2⟩
              dt_out := s.dt * inv_aabb_size }
        ∧ s.x = o.x + s.tr * d.x ∧ s.y = o.y + s.tr * d.y ∧ s.z = o.z + s.tr * d.z
        ∧ s.dt = ctx.grid.get_dt s.tr ctx.cone_angle ctx.dt_min ctx.dt_max
        ∧ (s.hit = true → ctx.grid.is_occupied_at
            (ctx.grid.get_grid_level_at s.x s.y s.z s.dt) s.x s.y s.z = true)
        ∧ (s.hit = false → ctx.bbox.contains s.x s.y s.z = false) := by
  constructor
  · simp only [march_and_generate_network_positions_kernel, if_true]
    rw [genLoop_slots ctx o d idir s_rand n fuel ray_t ray_t 0, List.range_eq_range']
  · intro s hs
    simp only [march_and_generate_network_positions_kernel, if_true] at hs
    have hf := genLoop_sample_facts ctx o d idir s_rand n fuel ray_t ray_t 0 s hs
    refine ⟨hf.2.2.2.2.2.1, ?_, hf.1, hf.2.1, hf.2.2.1, hf.2.2.2.1,
      fun hh => (hf.2.2.2.2.2.2.1 hh).2, hf.2.2.2.2.2.2.2⟩
    simp only [assign_normalized_ray_sample, SampleWrite.mk.injEq]
    refine ⟨trivial, trivial, by omega, trivial, trivial, by ring⟩

/-- Claim C3, witness: the first sample of a concrete run is at slot `0 < 3`. -/
theorem claim_C3_witness : (⟨0, 0, 0, 0, 0, 1, true⟩ : GenSample).k < 3 :=
  ((claim_C3 cexCtx cexO cexD cexD (fun _ => 1) 3 6 0 99 5 7 1).2
    ⟨0, 0, 0, 0, 0, 1, true⟩
    (by norm_num [march_and_generate_network_positions_kernel, genLoop_succ, genLoop_zero,
      cexCtx, cexO, cexD, cexGrid, cexBBox])).1

/-- With jitter randoms in `[0, 1]` and nonnegative step queries, every
emitted jitter parameter is at least the entry `t0`, and the emitted jitter
parameters are monotonically non-decreasing in emission order. -/
lemma genLoop_tr_mono (ctx : MarchCtx) (o d idir : V3) (s_rand : ℕ → ℚ) (n_steps : ℕ)
    (hr0 : ∀ k, 0 ≤ s_rand k) (hr1 : ∀ k, s_rand k ≤ 1)
    (hdt : ∀ t a mn mx, 0 ≤ ctx.grid.get_dt t a mn mx)
    (hnv : ∀ x y z dx dy dz ix iy iz mn lv,
      0 ≤ ctx.grid.get_dt_to_next_voxel x y z dx dy dz ix iy iz mn lv)
    (fuel : ℕ) :
    ∀ (t0 t1 : ℚ) (taken : ℕ), t0 ≤ t1 →
      (∀ s ∈ (genLoop ctx o d idir s_rand n_steps fuel t0 t1 taken).samples, t0 ≤ s.tr) ∧
      List.Chain' (fun a b => a ≤ b)
        ((genLoop ctx o d idir s_rand n_steps fuel t0 t1 taken).samples.map (fun s => s.tr)) := by
  induction fuel with
  | zero => intro t0 t1 taken h01; simp [genLoop_zero]
  | succ fuel ih =>
    intro t0 t1 taken h01
    have htr_lb : t0 ≤ t0 + (t1 - t0) * s_rand taken := by
      have := mul_nonneg (sub_nonneg.2 h01) (hr0 taken)
      linarith
    have htr_ub : t0 + (t1 - t0) * s_rand taken ≤ t1 := by
      have := mul_le_mul_of_nonneg_left (hr1 taken) (sub_nonneg.2 h01)
      linarith
    simp only [genLoop_succ]
    split_ifs with h1 h2 h3
    · dsimp only
      have hd := hdt (t0 + (t1 - t0) * s_rand taken) ctx.cone_angle ctx.dt_min ctx.dt_max
      have hrec := ih t1 (t1 + ctx.grid.get_dt (t0 + (t1 - t0) * s_rand taken)
        ctx.cone_angle ctx.dt_min ctx.dt_max) (taken + 1) (by linarith)
      constructor
      · intro s hs
        simp only [List.mem_cons] at hs
        rcases hs with rfl | hs
        · exact htr_lb
        · exact le_trans h01 (hrec.1 s hs)
      · simp only [List.map_cons]
        rw [List.chain'_cons']
        refine ⟨?_, hrec.2⟩
        intro y hy
        rw [List.head?_map] at hy
        rcases hh : (genLoop ctx o d idir s_rand n_steps fuel t1
            (t1 + ctx.grid.get_dt (t0 + (t1 - t0) * s_rand taken)
              ctx.cone_angle ctx.dt_min ctx.dt_max) (taken + 1)).samples.head? with _ | s1
        · rw [hh] at hy
          simp at hy
        · rw [hh] at hy
          simp only [Option.map_some', Option.mem_def, Option.some.injEq] at hy
          subst hy
          have hs1 : s1 ∈ (genLoop ctx o d idir s_rand n_steps fuel t1
              (t1 + ctx.grid.get_dt (t0 + (t1 - t0) * s_rand taken)
                ctx.cone_angle ctx.dt_min ctx.dt_max) (taken + 1)).samples :=
            List.mem_of_mem_head? hh
          exact le_trans htr_ub (hrec.1 s1 hs1)
    · have hn := hnv (o.x + (t0 + (t1 - t0) * s_rand taken) * d.x)
        (o.y + (t0 + (t1 - t0) * s_rand taken) * d.y)
        (o.z + (t0 + (t1 - t0) * s_rand taken) * d.z)
        d.x d.y d.z idir.x idir.y idir.z ctx.dt_min
        (ctx.grid.get_grid_level_at (o.x + (t0 + (t1 - t0) * s_rand taken) * d.x)
          (o.y + (t0 + (t1 - t0) * s_rand taken) * d.y)
          (o.z + (t0 + (t1 - t0) * s_rand taken) * d.z)
          (ctx.grid.get_dt (t0 + (t1 - t0) * s_rand taken)
            ctx.cone_angle ctx.dt_min ctx.dt_max))
      have hrec := ih t1 (t1 + ctx.grid.get_dt_to_next_voxel
        (o.x + (t0 + (t1 - t0) * s_rand taken) * d.x)
        (o.y + (t0 + (t1 - t0) * s_rand taken) * d.y)
        (o.z + (t0 + (t1 - t0) * s_rand taken) * d.z)
        d.x d.y d.z idir.x idir.y idir.z ctx.dt_min
        (ctx.grid.get_grid_level_at (o.x + (t0 + (t1 - t0) * s_rand taken) * d.x)
          (o.y + (t0 + (t1 - t0) * s_rand taken) * d.y)
          (o.z + (t0 + (t1 - t0) * s_rand taken) * d.z)
          (ctx.grid.get_dt (t0 + (t1 - t0) * s_rand taken)
            ctx.cone_angle ctx.dt_min ctx.dt_max))) taken (by linarith)
      exact ⟨fun s hs => le_trans h01 (hrec.1 s hs), hrec.2⟩
    · dsimp only
      constructor
      · intro s hs
        simp only [List.mem_singleton] at hs
        subst hs
        exact htr_lb
      · simp only [List.map_cons, List.map_nil]
        exact List.chain'_singleton _
    · simp

/-- A generator run that ends on its loop guard emitted exactly its step
count. -/
lemma genRun_done_len (c : GenRayCfg) (h : (genRun c).status = GenStatus.done) :
    (genRun c).samples.length = c.n_steps := by
  simp only [genRun, march_and_generate_network_positions_kernel, if_true] at h ⊢
  have := genLoop_done_len c.ctx c.o c.d c.idir c.s_rand c.n_steps c.fuel c.t c.t 0
    (Nat.zero_le _) h
  omega

/-- The compacted base indices of a batch of rays whose runs all finish on the
loop guard form the contiguous range starting at the batch's base offset. -/
lemma batch_base_indices_range : ∀ (cfgs : List GenRayCfg),
    (∀ c ∈ cfgs, (genRun c).status = GenStatus.done) →
    ∀ off, batch_base_indices off cfgs
      = List.range' off (cfgs.map (fun c => c.n_steps)).sum := by
  intro cfgs
  induction cfgs with
  | nil => intro _ off; simp [batch_base_indices]
  | cons c cs ih =>
    intro hdone off
    have hc := hdone c (List.mem_cons_self _ _)
    have hlen := genRun_done_len c hc
    simp only [batch_base_indices]
    have h1 : (genRun c).samples.map (fun s => off + s.k) = List.range' off c.n_steps := by
      have hcomp : (fun s : GenSample => off + s.k)
          = (fun k => off + k) ∘ (fun s : GenSample => s.k) := rfl
      rw [hcomp, ← List.map_map]
      have hslots : (genRun c).samples.map (fun s => s.k)
          = List.range' 0 (genRun c).samples.length := by
        simp only [genRun, march_and_generate_network_positions_kernel, if_true]
        exact genLoop_slots c.ctx c.o c.d c.idir c.s_rand c.n_steps c.fuel c.t c.t 0
      rw [hslots, List.map_add_range', hlen, Nat.add_zero]
    rw [h1, ih (fun x hx => hdone x (List.mem_cons_of_mem _ hx)) (off + c.n_steps)]
    have happ := List.range'_append off c.n_steps ((cs.map (fun x => x.n_steps)).sum) 1
    simp only [one_mul, Nat.mul_one] at happ
    rw [List.map_cons, List.sum_cons, happ, Nat.add_comm]

/-- Claim C4.  For a batch of live rays whose generator runs complete their
counted steps without leaving the bounding box (the run ends on the loop
guard), each ray emits exactly `n_steps` samples whose jittered parameters are
monotonically non-decreasing (jitter randoms lie in `[0, 1]` and the grid's
step queries are nonnegative); the total number of emitted samples equals the
sum of the per-ray step counts, and with offsets the exclusive prefix sum of
the counts the emitted base indices are exactly `0, 1, ..., total - 1`, with
no index skipped or duplicated. -/
theorem claim_C4 (cfgs : List GenRayCfg)
    (hdone : ∀ c ∈ cfgs, (genRun c).status = GenStatus.done)
    (hrand : ∀ c ∈ cfgs, ∀ k, 0 ≤ c.s_rand k ∧ c.s_rand k ≤ 1)
    (hdt : ∀ c ∈ cfgs, ∀ t a mn mx, 0 ≤ c.ctx.grid.get_dt t a mn mx)
    (hnv : ∀ c ∈ cfgs, ∀ x y z dx dy dz ix iy iz mn lv,
      0 ≤ c.ctx.grid.get_dt_to_next_voxel x y z dx dy dz ix iy iz mn lv) :
    (∀ c ∈ cfgs, (genRun c).samples.length = c.n_steps
      ∧ List.Chain' (fun a b => a ≤ b) ((genRun c).samples.map (fun s => s.tr)))
    ∧ (cfgs.map (fun c => (genRun c).samples.length)).sum
        = (cfgs.map (fun c => c.n_steps)).sum
    ∧ batch_base_indices 0 cfgs = List.range ((cfgs.map (fun c => c.n_steps)).sum) := by
  have hper : ∀ c ∈ cfgs, (genRun c).samples.length = c.n_steps
      ∧ List.Chain' (fun a b => a ≤ b) ((genRun c).samples.map (fun s => s.tr)) := by
    intro c hc
    refine ⟨genRun_done_len c (hdone c hc), ?_⟩
    have hm := genLoop_tr_mono c.ctx c.o c.d c.idir c.s_rand c.n_steps
      (fun k => (hrand c hc k).1) (fun k => (hrand c hc k).2) (hdt c hc) (hnv c hc)
      c.fuel c.t c.t 0 le_rfl
    simpa only [genRun, march_and_generate_network_positions_kernel, if_true] using hm.2
  refine ⟨hper, ?_, ?_⟩
  · rw [List.map_congr_left (fun c hc => (hper c hc).1)]
  · rw [batch_base_indices_range cfgs hdone 0, List.range_eq_range']

/-- Claim C4, witness: a one-ray batch over the concrete grid, with unit
jitter, whose emitted-sample total equals the sum of the step counts. -/
theorem claim_C4_witness :
    ([cexCfg].map (fun c => (genRun c).samples.length)).sum
      = ([cexCfg].map (fun c => c.n_steps)).sum :=
  (claim_C4 [cexCfg]
    (by
      intro c hc
      rw [List.mem_singleton] at hc
      subst hc
      norm_num [genRun, march_and_generate_network_positions_kernel, genLoop_succ,
        genLoop_zero, cexCfg, cexCtx, cexO, cexD, cexGrid, cexBBox])
    (by
      intro c hc k
      rw [List.mem_singleton] at hc
      subst hc
      norm_num [cexCfg])
    (by
      intro c hc t a mn mx
      rw [List.mem_singleton] at hc
      subst hc
      norm_num [cexCfg, cexCtx, cexGrid])
    (by
      intro c hc x y z dx dy dz ix iy iz mn lv
      rw [List.mem_singleton] at hc
      subst hc
      norm_num [cexCfg, cexCtx, cexGrid])).2.1

/-- Over `zenoCtx` the counting march from any `t < 2` never reaches its exit
condition: every step is strictly positive but halves the remaining distance
to `t_max = 2`. -/
lemma countLoop_zeno (fuel : ℕ) :
    ∀ (t : ℚ) (n : ℕ), t < 2 →
      (countLoop zenoCtx ⟨0, 0, 0⟩ ⟨1, 0, 0⟩ ⟨1, 0, 0⟩ 2 fuel t n).finished = false := by
  induction fuel with
  | zero => intro t n _; simp [countLoop_zero]
  | succ fuel ih =>
    intro t n ht
    rw [countLoop_succ]
    rw [if_pos ht]
    simp only [zenoCtx, zenoBBox, zenoGrid, if_pos ht]
    exact ih (t + (2 - t) / 2) (n + 1) (by linarith)

/-- Claim C5, counterexample.  Strict positivity of the step-size queries does
not make the counting march terminate: `zenoGrid` returns a strictly positive
step at every query, yet from `t = 0` with `t_max = 2` no amount of fuel makes
the counting kernel's loop reach `t ≥ t_max` or a bounding-box exit. -/
theorem claim_C5_counterexample :
    (∀ t a mn mx, 0 < zenoGrid.get_dt t a mn mx)
    ∧ (∀ x y z dx dy dz ix iy iz mn lv,
        0 < zenoGrid.get_dt_to_next_voxel x y z dx dy dz ix iy iz mn lv)
    ∧ ¬ count_march_terminates zenoCtx ⟨0, 0, 0⟩ ⟨1, 0, 0⟩ ⟨1, 0, 0⟩ 0 2 := by
  refine ⟨?_, ?_, ?_⟩
  · intro t a mn mx
    simp only [zenoGrid]
    split_ifs with h
    · linarith
    · norm_num
  · intro x y z dx dy dz ix iy iz mn lv
    norm_num [zenoGrid]
  · rintro ⟨fuel, hf⟩
    simp only [march_and_count_steps_per_ray_kernel, if_true] at hf
    rw [countLoop_zeno fuel 0 0 (by norm_num)] at hf
    exact Bool.false_ne_true hf

/-- With both step-size queries bounded below by `δ > 0`, the counting march
exits once the fuel covers the remaining parametric distance. -/
lemma countLoop_finishes (ctx : MarchCtx) (o d idir : V3) (t_max δ : ℚ)
    (hδ : 0 < δ)
    (hdt : ∀ t a mn mx, δ ≤ ctx.grid.get_dt t a mn mx)
    (hnv : ∀ x y z dx dy dz ix iy iz mn lv,
      δ ≤ ctx.grid.get_dt_to_next_voxel x y z dx dy dz ix iy iz mn lv) :
    ∀ (f : ℕ) (t : ℚ) (n : ℕ), t_max - t ≤ f * δ →
      (countLoop ctx o d idir t_max (f + 1) t n).finished = true := by
  intro f
  induction f with
  | zero =>
    intro t n hf
    rw [countLoop_succ]
    rw [if_neg (by push_cast at hf; linarith)]
  | succ f ih =>
    intro t n hf
    rw [countLoop_succ]
    by_cases h1 : t < t_max
    · rw [if_pos h1]
      dsimp only
      split_ifs with h2 h3 h4
      · have hd := hdt t ctx.cone_angle ctx.dt_min ctx.dt_max
        exact ih _ _ (by push_cast at hf ⊢; linarith)
      · have hd := hdt t ctx.cone_angle ctx.dt_min ctx.dt_max
        exact ih _ _ (by push_cast at hf ⊢; linarith)
      · have hn := hnv (o.x + t * d.x) (o.y + t * d.y) (o.z + t * d.z)
          d.x d.y d.z idir.x idir.y idir.z ctx.dt_min
          (ctx.grid.get_grid_level_at (o.x + t * d.x) (o.y + t * d.y) (o.z + t * d.z)
            (ctx.grid.get_dt t ctx.cone_angle ctx.dt_min ctx.dt_max))
        exact ih _ _ (by push_cast at hf ⊢; linarith)
      · rfl
    · rw [if_neg h1]

/-- With both step-size queries bounded below by `δ > 0`, nonnegative jitter
randoms and a bounding box the ray has left beyond parameter `T`, the
generator march exits (on its guard or on the box) once the fuel covers the
distance to `T`. -/
lemma genLoop_no_fuelOut (ctx : MarchCtx) (o d idir : V3) (s_rand : ℕ → ℚ)
    (n_steps : ℕ) (δ T : ℚ) (hδ : 0 < δ)
    (hdt : ∀ t a mn mx, δ ≤ ctx.grid.get_dt t a mn mx)
    (hnv : ∀ x y z dx dy dz ix iy iz mn lv,
      δ ≤ ctx.grid.get_dt_to_next_voxel x y z dx dy dz ix iy iz mn lv)
    (hr0 : ∀ k, 0 ≤ s_rand k)
    (hT : ∀ s, T ≤ s →
      ctx.bbox.contains (o.x + s * d.x) (o.y + s * d.y) (o.z + s * d.z) = false) :
    ∀ (f : ℕ) (t0 t1 : ℚ) (taken : ℕ), t0 ≤ t1 → T ≤ t1 + f * δ →
      (genLoop ctx o d idir s_rand n_steps (f + 2) t0 t1 taken).status
        ≠ GenStatus.fuelOut := by
  intro f
  induction f with
  | zero =>
    intro t0 t1 taken h01 hf
    push_cast at hf
    rw [genLoop_succ]
    by_cases hc : taken < n_steps
    · rw [if_pos hc]
      dsimp only
      by_cases hcont : ctx.bbox.contains (o.x + (t0 + (t1 - t0) * s_rand taken) * d.x)
          (o.y + (t0 + (t1 - t0) * s_rand taken) * d.y)
          (o.z + (t0 + (t1 - t0) * s_rand taken) * d.z) = true
      · rw [if_pos hcont]
        have htr1 : t0 + (t1 - t0) * s_rand taken ≤ t1 := by
          have h := hT (t0 + (t1 - t0) * s_rand taken)
          by_contra hgt
          push_neg at hgt
          have : T ≤ t0 + (t1 - t0) * s_rand taken := by linarith
          rw [hT _ this] at hcont
          exact Bool.false_ne_true hcont
        split_ifs with hocc
        · dsimp only
          rw [genLoop_succ]
          by_cases hc2 : taken + 1 < n_steps
          · rw [if_pos hc2]
            dsimp only
            have hd := hdt (t0 + (t1 - t0) * s_rand taken) ctx.cone_angle ctx.dt_min ctx.dt_max
            have hge : T ≤ t1 + (t1 + ctx.grid.get_dt (t0 + (t1 - t0) * s_rand taken)
                ctx.cone_angle ctx.dt_min ctx.dt_max - t1) * s_rand (taken + 1) := by
              have := mul_nonneg (by linarith :
                (0:ℚ) ≤ t1 + ctx.grid.get_dt (t0 + (t1 - t0) * s_rand taken)
                  ctx.cone_angle ctx.dt_min ctx.dt_max - t1) (hr0 (taken + 1))
              linarith
            rw [if_neg (by rw [hT _ hge]; exact Bool.false_ne_true)]
            simp
          · rw [if_neg hc2]
            simp
        · rw [genLoop_succ]
          by_cases hc2 : taken < n_steps
          · rw [if_pos hc2]
            dsimp only
            have hn := hnv (o.x + (t0 + (t1 - t0) * s_rand taken) * d.x)
              (o.y + (t0 + (t1 - t0) * s_rand taken) * d.y)
              (o.z + (t0 + (t1 - t0) * s_rand taken) * d.z)
              d.x d.y d.z idir.x idir.y idir.z ctx.dt_min
              (ctx.grid.get_grid_level_at (o.x + (t0 + (t1 - t0) * s_rand taken) * d.x)
                (o.y + (t0 + (t1 - t0) * s_rand taken) * d.y)
                (o.z + (t0 + (t1 - t0) * s_rand taken) * d.z)
                (ctx.grid.get_dt (t0 + (t1 - t0) * s_rand taken)
                  ctx.cone_angle ctx.dt_min ctx.dt_max))
            have hge : T ≤ t1 + (t1 + ctx.grid.get_dt_to_next_voxel
                (o.x + (t0 + (t1 - t0) * s_rand taken) * d.x)
                (o.y + (t0 + (t1 - t0) * s_rand taken) * d.y)
                (o.z + (t0 + (t1 - t0) * s_rand taken) * d.z)
                d.x d.y d.z idir.x idir.y idir.z ctx.dt_min
                (ctx.grid.get_grid_level_at (o.x + (t0 + (t1 - t0) * s_rand taken) * d.x)
                  (o.y + (t0 + (t1 - t0) * s_rand taken) * d.y)
                  (o.z + (t0 + (t1 - t0) * s_rand taken) * d.z)
                  (ctx.grid.get_dt (t0 + (t1 - t0) * s_rand taken)
                    ctx.cone_angle ctx.dt_min ctx.dt_max)) - t1) * s_rand taken := by
              have := mul_nonneg (by linarith :
                (0:ℚ) ≤ t1 + ctx.grid.get_dt_to_next_voxel
                  (o.x + (t0 + (t1 - t0) * s_rand taken) * d.x)
                  (o.y + (t0 + (t1 - t0) * s_rand taken) * d.y)
                  (o.z + (t0 + (t1 - t0) * s_rand taken) * d.z)
                  d.x d.y d.z idir.x idir.y idir.z ctx.dt_min
                  (ctx.grid.get_grid_level_at (o.x + (t0 + (t1 - t0) * s_rand taken) * d.x)
                    (o.y + (t0 + (t1 - t0) * s_rand taken) * d.y)
                    (o.z + (t0 + (t1 - t0) * s_rand taken) * d.z)
                    (ctx.grid.get_dt (t0 + (t1 - t0) * s_rand taken)
                      ctx.cone_angle ctx.dt_min ctx.dt_max)) - t1) (hr0 taken)
              linarith
            rw [if_neg (by rw [hT _ hge]; exact Bool.false_ne_true)]
            simp
          · rw [if_neg hc2]
            simp
      · rw [if_neg hcont]
        simp
    · rw [if_neg hc]
      simp
  | succ f ih =>
    intro t0 t1 taken h01 hf
    push_cast at hf
    rw [genLoop_succ]
    by_cases hc : taken < n_steps
    · rw [if_pos hc]
      dsimp only
      by_cases hcont : ctx.bbox.contains (o.x + (t0 + (t1 - t0) * s_rand taken) * d.x)
          (o.y + (t0 + (t1 - t0) * s_rand taken) * d.y)
          (o.z + (t0 + (t1 - t0) * s_rand taken) * d.z) = true
      · rw [if_pos hcont]
        split_ifs with hocc
        · dsimp only
          have hd := hdt (t0 + (t1 - t0) * s_rand taken) ctx.cone_angle ctx.dt_min ctx.dt_max
          have := ih t1 (t1 + ctx.grid.get_dt (t0 + (t1 - t0) * s_rand taken)
              ctx.cone_angle ctx.dt_min ctx.dt_max) (taken + 1)
              (by linarith) (by linarith)
          simpa using this
        · have hn := hnv (o.x + (t0 + (t1 - t0) * s_rand taken) * d.x)
            (o.y + (t0 + (t1 - t0) * s_rand taken) * d.y)
            (o.z + (t0 + (t1 - t0) * s_rand taken) * d.z)
            d.x d.y d.z idir.x idir.y idir.z ctx.dt_min
            (ctx.grid.get_grid_level_at (o.x + (t0 + (t1 - t0) * s_rand taken) * d.x)
              (o.y + (t0 + (t1 - t0) * s_rand taken) * d.y)
              (o.z + (t0 + (t1 - t0) * s_rand taken) * d.z)
              (ctx.grid.get_dt (t0 + (t1 - t0) * s_rand taken)
                ctx.cone_angle ctx.dt_min ctx.dt_max))
          have := ih t1 (t1 + ctx.grid.get_dt_to_next_voxel
              (o.x + (t0 + (t1 - t0) * s_rand taken) * d.x)
              (o.y + (t0 + (t1 - t0) * s_rand taken) * d.y)
              (o.z + (t0 + (t1 - t0) * s_rand taken) * d.z)
              d.x d.y d.z idir.x idir.y idir.z ctx.dt_min
              (ctx.grid.get_grid_level_at (o.x + (t0 + (t1 - t0) * s_rand taken) * d.x)
                (o.y + (t0 + (t1 - t0) * s_rand taken) * d.y)
                (o.z + (t0 + (t1 - t0) * s_rand taken) * d.z)
                (ctx.grid.get_dt (t0 + (t1 - t0) * s_rand taken)
                  ctx.cone_angle ctx.dt_min ctx.dt_max))) taken
              (by linarith) (by linarith)
          exact this
      · rw [if_neg hcont]
        simp
    · rw [if_neg hc]
      simp

/-- Claim C5, amended.  Strict positivity alone is not enough (see the
counterexample); with the step-size queries uniformly bounded below by some
`δ > 0` the counting march always terminates, bounded by `t_max`
and bounding-box exit; the generator march, which checks no `t_max`, also
terminates provided additionally its jitter randoms are nonnegative and the
ray leaves the bounding box beyond some parameter `T` (its other exit being
the `n_steps` loop guard). -/
theorem claim_C5_amended (ctx : MarchCtx) (o d idir : V3) (ray_t ray_t_max : ℚ)
    (s_rand : ℕ → ℚ) (n_ray_steps : ℕ) (δ T : ℚ) (hδ : 0 < δ)
    (hdt : ∀ t a mn mx, δ ≤ ctx.grid.get_dt t a mn mx)
    (hnv : ∀ x y z dx dy dz ix iy iz mn lv,
      δ ≤ ctx.grid.get_dt_to_next_voxel x y z dx dy dz ix iy iz mn lv)
    (hr0 : ∀ k, 0 ≤ s_rand k)
    (hT : ∀ s, T ≤ s →
      ctx.bbox.contains (o.x + s * d.x) (o.y + s * d.y) (o.z + s * d.z) = false) :
    count_march_terminates ctx o d idir ray_t ray_t_max
    ∧ gen_march_terminates ctx o d idir ray_t s_rand n_ray_steps := by
  constructor
  · refine ⟨⌈(ray_t_max - ray_t) / δ⌉₊ + 1, ?_⟩
    simp only [march_and_count_steps_per_ray_kernel, if_true]
    refine countLoop_finishes ctx o d idir ray_t_max δ hδ hdt hnv _ _ _ ?_
    have h1 := Nat.le_ceil ((ray_t_max - ray_t) / δ)
    rw [div_le_iff₀ hδ] at h1
    linarith
  · refine ⟨⌈(T - ray_t) / δ⌉₊ + 2, ?_⟩
    simp only [march_and_generate_network_positions_kernel, if_true]
    refine genLoop_no_fuelOut ctx o d idir s_rand n_ray_steps δ T hδ hdt hnv hr0 hT
      _ _ _ _ le_rfl ?_
    have h1 := Nat.le_ceil ((T - ray_t) / δ)
    rw [div_le_iff₀ hδ] at h1
    linarith

/-- Claim C5, witness: over a unit-step grid and a box left at `x = 10`, both
marches terminate from `t = 0`. -/
theorem claim_C5_witness :
    count_march_terminates boundedCtx ⟨0, 0, 0⟩ ⟨1, 0, 0⟩ ⟨1, 0, 0⟩ 0 5
    ∧ gen_march_terminates boundedCtx ⟨0, 0, 0⟩ ⟨1, 0, 0⟩ ⟨1, 0, 0⟩ 0 (fun _ => 0) 4 :=
  claim_C5_amended boundedCtx ⟨0, 0, 0⟩ ⟨1, 0, 0⟩ ⟨1, 0, 0⟩ 0 5 (fun _ => 0) 4 1 11
    (by norm_num)
    (by intro t a mn mx; norm_num [boundedCtx, emptyGrid])
    (by intro x y z dx dy dz ix iy iz mn lv; norm_num [boundedCtx, emptyGrid])
    (by intro k; norm_num)
    (by
      intro s hs
      simp only [boundedCtx, boundedBBox]
      rw [decide_eq_false_iff_not]
      intro hlt
      norm_num at hlt
      linarith)

/-- Claim C10.  Every write of a live ray's generator run lands at a flat
index `offset + k`, `offset + k + batch_size` or `offset + k + 2*batch_size`
with `k < n_steps` — the loop guard bounds the slot even for the
bounding-box-exit emission — and for two rays whose offsets respect the
exclusive prefix sum of the counts (and whose compacted region fits in
`batch_size`, the channel stride), no two rays write to the same index. -/
theorem claim_C10 :
    (∀ (batch_size sample_offset : ℕ) (inv_aabb_size : ℚ) (c : GenRayCfg),
      ∀ a ∈ genRunWriteIndices batch_size sample_offset inv_aabb_size c,
        ∃ k e, k < c.n_steps ∧ e < 3 ∧ a = sample_offset + k + e * batch_size)
    ∧ (∀ (batch_size off₁ off₂ : ℕ) (inv₁ inv₂ : ℚ) (c₁ c₂ : GenRayCfg),
        off₁ + c₁.n_steps ≤ off₂ → off₂ + c₂.n_steps ≤ batch_size →
        ∀ a ∈ genRunWriteIndices batch_size off₁ inv₁ c₁,
          a ∉ genRunWriteIndices batch_size off₂ inv₂ c₂) := by
  have hidx : ∀ (B off : ℕ) (inv : ℚ) (c : GenRayCfg),
      ∀ a ∈ genRunWriteIndices B off inv c,
        ∃ k e, k < c.n_steps ∧ e < 3 ∧ a = off + k + e * B := by
    intro B off inv c a ha
    simp only [genRunWriteIndices, genRunWrites, List.mem_flatMap, List.mem_map] at ha
    obtain ⟨w, ⟨s, hs, rfl⟩, haw⟩ := ha
    have hs' : s ∈ (genLoop c.ctx c.o c.d c.idir c.s_rand c.n_steps c.fuel
        c.t c.t 0).samples := by
      simpa only [genRun, march_and_generate_network_positions_kernel, if_true] using hs
    have hk : s.k < c.n_steps :=
      (genLoop_sample_facts c.ctx c.o c.d c.idir c.s_rand c.n_steps c.fuel
        c.t c.t 0 s hs').2.2.2.2.2.1
    simp only [assign_normalized_ray_sample, List.mem_cons, List.not_mem_nil,
      or_false] at haw
    rcases haw with rfl | rfl | rfl
    · exact ⟨s.k, 0, hk, by norm_num, by ring⟩
    · exact ⟨s.k, 1, hk, by norm_num, by ring⟩
    · exact ⟨s.k, 2, hk, by norm_num, by ring⟩
  refine ⟨hidx, ?_⟩
  intro B off₁ off₂ inv₁ inv₂ c₁ c₂ h₁ h₂ a ha hmem
  obtain ⟨k, e, hk, he, rfl⟩ := hidx B off₁ inv₁ c₁ a ha
  obtain ⟨k', e', hk', he', heq⟩ := hidx B off₂ inv₂ c₂ _ hmem
  interval_cases e <;> interval_cases e' <;> omega

/-- Claim C10, witness: with counts 3 and 3, offsets 0 and 3 and
`batch_size = 6`, index 0 (written by the first ray) is not among the second
ray's write indices. -/
theorem claim_C10_witness : (0 : ℕ) ∉ genRunWriteIndices 6 3 1 cexCfg :=
  claim_C10.2 6 0 3 1 1 cexCfg cexCfg
    (by norm_num [cexCfg]) (by norm_num [cexCfg]) 0
    (by norm_num [genRunWriteIndices, genRunWrites, genRun,
      march_and_generate_network_positions_kernel, genLoop_succ, genLoop_zero,
      assign_normalized_ray_sample, cexCfg, cexCtx, cexO, cexD, cexGrid, cexBBox])

end TurboNeRF
